import Mathlib

/-!
Verification development for the asyncio publish/notify demo in src/demo.py.

The program is single-threaded cooperative multitasking (asyncio).  We embed
it as a small-step system: the shared dictionary named state (lines 21 to 28)
becomes a record of per-topic payloads, each per-topic asyncio.Condition
becomes the set of waiter tasks currently registered on it, and the event loop
becomes an explicit schedule, a list of events applied in order.

Atomicity of each event is justified from the source as follows.  A task
segment runs from one suspension point to the next.  In demo.py every
critical section of a Condition lock is free of awaits that can suspend:
the decode handlers (lines 38 to 52) hold the lock only across notify_all,
and a waiter in await_message (lines 140 to 146) holds it only between the
return of cond.wait and the exit of the async-with block.  Hence the lock is
never held at a yield point, so acquiring it never suspends, and

  - an entire protocol_x_decoder task (json decode, payload write, notify_all)
    runs as one uninterrupted segment: one dispatch event;
  - await_message runs as one segment from its start to the suspension inside
    cond.wait (registration), and one segment from wakeup to returning the
    message name.

json.loads is modeled abstractly: a raw datagram either parses to a Json
value or fails (none).  A Json object value stands for the Python dict that
json.loads produces, one entry per key.
-/

/-- JSON values as produced by json.loads: null, booleans, numbers, strings,
arrays and objects.  Numbers are modeled as integers (the demo only ever
sends integers); nothing below depends on the numeric range. -/
inductive Json where
  | null : Json
  | bool (b : Bool) : Json
  | num (n : Int) : Json
  | str (s : String) : Json
  | arr (elems : List Json) : Json
  | obj (fields : List (String × Json)) : Json

/-- Field access data[k] on a parsed JSON value: some value when data is an
object with field k, none when the field is missing (Python KeyError) or the
value is not an object (Python TypeError). -/
def Json.lookup : Json → String → Option Json
  | .obj fields, k => (fields.find? (fun p => p.1 = k)).map Prod.snd
  | _, _ => none

/-- The three registered topics of the demo: the keys a, b, c of the state
dictionary (lines 21 to 28). -/
inductive Topic where
  | a : Topic
  | b : Topic
  | c : Topic
deriving DecidableEq

/-- The string name of a topic, as used for dictionary keys in the source. -/
def topicName : Topic → String
  | .a => "a"
  | .b => "b"
  | .c => "c"

/-- Resolve a topic name string to a registered topic: some t for the three
registered names, none otherwise (an unregistered name; state lookup of such
a name raises KeyError in the source). -/
def topicOfName (s : String) : Option Topic :=
  if s = "a" then some .a
  else if s = "b" then some .b
  else if s = "c" then some .c
  else none

/-- The payload part of the shared state dictionary: the current payload of
each topic (keys a, b, c of state, lines 21 to 28).  A payload is an arbitrary
Json value because the decode handlers store whatever the payload field of the
message holds, without validating its shape. -/
structure State where
  a : Json
  b : Json
  c : Json

/-- Read the current payload of a topic. -/
def State.get (st : State) : Topic → Json
  | .a => st.a
  | .b => st.b
  | .c => st.c

/-- Wholesale replacement of one topic payload: state[t] = data in the decode
handlers (lines 39, 44, 49). -/
def State.set (st : State) : Topic → Json → State
  | .a, v => { st with a := v }
  | .b, v => { st with b := v }
  | .c, v => { st with c := v }

/-- The initial payloads of the state dictionary (lines 21 to 28). -/
def initialState : State :=
  { a := .obj [("1", .num 0), ("2", .num 0)]
  , b := .obj [("3", .num 0), ("4", .num 0)]
  , c := .obj [("5", .num 0), ("6", .num 0)] }

/-- The errors protocol_x_decoder can raise: malformedMessage covers a
json.loads failure and a failing data[type] or data[payload] access
(lines 60 to 62); unknownMessageType is the ValueError raised on line 66
when decoders.get finds no handler for the declared type. -/
inductive DecodeError where
  | malformedMessage : DecodeError
  | unknownMessageType (ty : Json) : DecodeError

/-- Handler lookup decoders.get(type_) (lines 54 to 64): the dictionary keys
are the strings a, b, c, so only a string type value can match. -/
def decoderForType : Json → Option Topic
  | .str s => topicOfName s
  | _ => none

/-- protocol_x_decoder (lines 37 to 67), pure part.  The argument raw is the
abstract result of json.loads (none = parse failure).  On success it returns
the new state (the selected decode handler performs state[t] = payload) and
the topic whose condition is notified; the notification itself is applied by
the dispatch event of the step semantics below. -/
def protocol_x_decoder (raw : Option Json) (st : State) :
    Except DecodeError (State × Topic) :=
  match raw with
  | none => .error .malformedMessage
  | some data =>
    match data.lookup "type" with
    | none => .error .malformedMessage
    | some ty =>
      match data.lookup "payload" with
      | none => .error .malformedMessage
      | some payload =>
        match decoderForType ty with
        | none => .error (.unknownMessageType ty)
        | some t => .ok (st.set t payload, t)

/-- The topic and payload a raw message decodes to, independent of the state:
some (t, p) exactly when dispatch of the message succeeds. -/
def decoded : Option Json → Option (Topic × Json)
  | none => none
  | some data =>
    match data.lookup "type", data.lookup "payload" with
    | some ty, some payload => (decoderForType ty).map (fun t => (t, payload))
    | _, _ => none

/-- The error a failing raw message produces, independent of the state. -/
def decodeErr : Option Json → DecodeError
  | none => .malformedMessage
  | some data =>
    match data.lookup "type", data.lookup "payload" with
    | some ty, some _ => .unknownMessageType ty
    | _, _ => .malformedMessage

/-- Characterization of the decoder by decoded and decodeErr: the outcome
topic and payload do not depend on the current state, and the state is only
threaded into the success branch. -/
theorem protocol_x_decoder_eq (raw : Option Json) (st : State) :
    protocol_x_decoder raw st =
      match decoded raw with
      | some (t, p) => .ok (st.set t p, t)
      | none => .error (decodeErr raw) := by
  cases raw with
  | none => rfl
  | some data =>
    simp only [protocol_x_decoder, decoded, decodeErr]
    cases hty : data.lookup "type" with
    | none => rfl
    | some ty =>
      cases hp : data.lookup "payload" with
      | none => rfl
      | some payload =>
        cases hdec : decoderForType ty with
        | none => simp [hdec]
        | some t => simp [hdec]

/-- A well-formed protocol X message for topic t carrying payload p, as
produced by the UDP generator (lines 96 to 100) and consumed by json.loads. -/
def mkMsg (t : Topic) (p : Json) : Option Json :=
  some (.obj [("type", .str (topicName t)), ("payload", p)])

theorem decoded_mkMsg (t : Topic) (p : Json) :
    decoded (mkMsg t p) = some (t, p) := by
  cases t <;> rfl

/-- The lifecycle of one await_message task (lines 140 to 146).  start: the
task exists but its body has not run yet.  waiting: the body ran to the
suspension inside cond.wait, so the task is registered on the topic
condition.  woken: notify_all set its wait future; it will finish when next
scheduled.  done: it returned the message name.  failed: the state lookup on
line 143 raised KeyError because the name is not a registered topic. -/
inductive WaiterState where
  | start (name : String) : WaiterState
  | waiting (t : Topic) : WaiterState
  | woken (t : Topic) : WaiterState
  | done (name : String) : WaiterState
  | failed : WaiterState
deriving DecidableEq

/-- Effect of cond.notify_all for topic t on one waiter: every waiter
currently registered on the topic condition becomes runnable; waiters in any
other phase (not yet registered, already woken, finished, failed, or
registered on another topic) are untouched. -/
def notifyOne (t : Topic) : WaiterState → WaiterState
  | .waiting u => if u = t then .woken t else .waiting u
  | w => w

/-- One scheduling segment of an await_message task (lines 140 to 146).
From start the body runs: the state lookup of name_event either raises
KeyError (unregistered name) or registers the task on the condition and
suspends inside cond.wait.  A waiting task has nothing to run.  A woken task
resumes from cond.wait, leaves the async-with block and returns the name.
done and failed are terminal. -/
def await_message_step : WaiterState → WaiterState
  | .start name =>
    match topicOfName name with
    | some t => .waiting t
    | none => .failed
  | .waiting t => .waiting t
  | .woken t => .done (topicName t)
  | .done name => .done name
  | .failed => .failed

/-- A child waiter counts as completed for asyncio.wait when its task is
done, whether it returned or raised. -/
def completedChild : Option WaiterState → Bool
  | some (.done _) => true
  | some .failed => true
  | _ => false

/-- A child waiter that raised (KeyError from an unregistered topic name). -/
def failedChild : Option WaiterState → Bool
  | some .failed => true
  | _ => false

/-- A child waiter that returned normally. -/
def doneChild : Option WaiterState → Bool
  | some (.done _) => true
  | _ => false

/-- The name a normally finished child waiter returned. -/
def doneNameOf : Option WaiterState → Option String
  | some (.done name) => some name
  | _ => none

/-- The lifecycle of one await_any_messages call (lines 158 to 166):
pending holds the task ids of its await_message children; resolvedOk holds
the returned list of completed message names; resolvedErr means the result
collection re-raised a child exception. -/
inductive AnyWaitState where
  | pending (children : List Nat) : AnyWaitState
  | resolvedOk (names : List String) : AnyWaitState
  | resolvedErr : AnyWaitState
deriving DecidableEq

/-- One scheduling segment of await_any_messages (lines 158 to 166).  The
call sits in asyncio.wait with return_when FIRST_COMPLETED: while no child
task has completed it stays suspended.  Once at least one child is complete,
asyncio.wait returns the partition (completed, pending) as of this
resumption, and the list comprehension on line 165 collects task.result()
of every completed child: it re-raises if any completed child raised,
otherwise the call returns the names of all children done by now.  The
pending children are neither awaited nor cancelled. -/
def await_any_messages_step (ws : Nat → Option WaiterState) :
    AnyWaitState → AnyWaitState
  | .pending children =>
    if children.any (fun i => completedChild (ws i)) then
      if children.any (fun i => failedChild (ws i)) then .resolvedErr
      else .resolvedOk (children.filterMap (fun i => doneNameOf (ws i)))
    else .pending children
  | st => st

/-- The lifecycle of one await_all_messages call (lines 148 to 156):
pending holds the task ids of its await_message children and the argument
tuple messages, which is what the call returns on line 156. -/
inductive AllWaitState where
  | pending (children : List Nat) (names : List String) : AllWaitState
  | resolvedOk (names : List String) : AllWaitState
  | resolvedErr : AllWaitState
deriving DecidableEq

/-- One scheduling segment of await_all_messages (lines 148 to 156).  The
call sits in asyncio.gather: it re-raises as soon as any child raised (even
while others are still pending), returns the argument tuple once every child
has returned, and otherwise stays suspended. -/
def await_all_messages_step (ws : Nat → Option WaiterState) :
    AllWaitState → AllWaitState
  | .pending children names =>
    if children.any (fun i => failedChild (ws i)) then .resolvedErr
    else if children.all (fun i => doneChild (ws i)) then .resolvedOk names
    else .pending children names
  | st => st

/-- The whole system at one instant: the shared payload store plus every
task, indexed by task id.  The per-topic conditions are represented by the
set of waiter tasks currently in phase waiting on that topic. -/
structure Sys where
  store : State
  waiters : Nat → Option WaiterState
  anys : Nat → Option AnyWaitState
  alls : Nat → Option AllWaitState

/-- One event of the cooperative event loop: either a datagram arrives and
its protocol_x_decoder task runs to completion (one uninterrupted segment,
see the header comment), or the loop schedules one runnable task for one
segment.  Scheduling a task that does not exist or has nothing to run leaves
the system unchanged. -/
inductive Event where
  | dispatch (raw : Option Json) : Event
  | runWaiter (i : Nat) : Event
  | runAny (j : Nat) : Event
  | runAll (j : Nat) : Event

/-- The small-step semantics.  A dispatch event runs protocol_x_decoder: on
error the task raises and the system is unchanged; on success the selected
decode handler writes the payload and calls notify_all within the same
segment, so the store update and the wakeup of every registered waiter on
that topic are a single step. -/
def step (s : Sys) : Event → Sys
  | .dispatch raw =>
    match protocol_x_decoder raw s.store with
    | .error _ => s
    | .ok (st, t) =>
      { s with
        store := st
        waiters := fun k => (s.waiters k).map (notifyOne t) }
  | .runWaiter i =>
    match s.waiters i with
    | none => s
    | some w =>
      { s with
        waiters := fun k => if k = i then some (await_message_step w) else s.waiters k }
  | .runAny j =>
    match s.anys j with
    | none => s
    | some aw =>
      { s with
        anys := fun k => if k = j then some (await_any_messages_step s.waiters aw) else s.anys k }
  | .runAll j =>
    match s.alls j with
    | none => s
    | some aw =>
      { s with
        alls := fun k => if k = j then some (await_all_messages_step s.waiters aw) else s.alls k }

/-- Run a schedule, a list of events, in order. -/
def runEvents (s : Sys) (evs : List Event) : Sys :=
  evs.foldl step s

/-- Whether an event is a dispatch that successfully decodes to topic t and
hence notifies the topic condition. -/
def notifies (t : Topic) : Event → Bool
  | .dispatch raw =>
    match decoded raw with
    | some (u, _) => u = t
    | none => false
  | _ => false

theorem runEvents_nil (s : Sys) : runEvents s [] = s := rfl

theorem runEvents_cons (s : Sys) (e : Event) (evs : List Event) :
    runEvents s (e :: evs) = runEvents (step s e) evs := rfl

/-- A dispatch whose message fails to decode raises inside its own task and
leaves the whole system unchanged. -/
theorem step_dispatch_none (s : Sys) (raw : Option Json)
    (h : decoded raw = none) : step s (.dispatch raw) = s := by
  simp only [step]
  rw [protocol_x_decoder_eq, h]

/-- A dispatch whose message decodes to (t, p) replaces the payload of t
wholesale and wakes every waiter registered on t, in one step. -/
theorem step_dispatch_some (s : Sys) (raw : Option Json) (t : Topic) (p : Json)
    (h : decoded raw = some (t, p)) :
    step s (.dispatch raw) =
      { s with
        store := s.store.set t p
        waiters := fun k => (s.waiters k).map (notifyOne t) } := by
  simp only [step]
  rw [protocol_x_decoder_eq, h]

theorem step_runWaiter_store (s : Sys) (i : Nat) :
    (step s (.runWaiter i)).store = s.store := by
  simp only [step]; cases s.waiters i <;> rfl

theorem step_runWaiter_anys (s : Sys) (i : Nat) :
    (step s (.runWaiter i)).anys = s.anys := by
  simp only [step]; cases s.waiters i <;> rfl

theorem step_runWaiter_alls (s : Sys) (i : Nat) :
    (step s (.runWaiter i)).alls = s.alls := by
  simp only [step]; cases s.waiters i <;> rfl

theorem step_runWaiter_waiters (s : Sys) (i k : Nat) :
    (step s (.runWaiter i)).waiters k =
      if k = i then (s.waiters i).map (fun w => await_message_step w)
      else s.waiters k := by
  simp only [step]
  cases hw : s.waiters i with
  | none =>
    by_cases hk : k = i
    · simp [hk, hw]
    · simp [hk]
  | some w =>
    by_cases hk : k = i
    · simp [hk, hw]
    · simp [hk]

theorem step_runAny_waiters (s : Sys) (j : Nat) :
    (step s (.runAny j)).waiters = s.waiters := by
  simp only [step]; cases s.anys j <;> rfl

theorem step_runAny_store (s : Sys) (j : Nat) :
    (step s (.runAny j)).store = s.store := by
  simp only [step]; cases s.anys j <;> rfl

theorem step_runAny_alls (s : Sys) (j : Nat) :
    (step s (.runAny j)).alls = s.alls := by
  simp only [step]; cases s.anys j <;> rfl

theorem step_runAll_waiters (s : Sys) (j : Nat) :
    (step s (.runAll j)).waiters = s.waiters := by
  simp only [step]; cases s.alls j <;> rfl

theorem step_runAll_store (s : Sys) (j : Nat) :
    (step s (.runAll j)).store = s.store := by
  simp only [step]; cases s.alls j <;> rfl

theorem step_runAll_anys (s : Sys) (j : Nat) :
    (step s (.runAll j)).anys = s.anys := by
  simp only [step]; cases s.alls j <;> rfl

theorem step_dispatch_anys (s : Sys) (raw : Option Json) :
    (step s (.dispatch raw)).anys = s.anys := by
  simp only [step]; cases protocol_x_decoder raw s.store with
  | error e => rfl
  | ok pr => cases pr; rfl

theorem step_dispatch_alls (s : Sys) (raw : Option Json) :
    (step s (.dispatch raw)).alls = s.alls := by
  simp only [step]; cases protocol_x_decoder raw s.store with
  | error e => rfl
  | ok pr => cases pr; rfl

/-- One-step preservation: a waiter that is registered on topic t (or whose
body has not run yet) stays that way under any event that does not notify t:
no scheduling of other tasks, no dispatch for another topic, and no failed
dispatch can move it. -/
theorem step_waiter_unnotified (s : Sys) (e : Event) (i : Nat) (t : Topic)
    (name : String) (hname : topicOfName name = some t)
    (hnot : notifies t e = false)
    (hw : s.waiters i = some (.start name) ∨ s.waiters i = some (.waiting t)) :
    (step s e).waiters i = some (.start name) ∨
      (step s e).waiters i = some (.waiting t) := by
  cases e with
  | dispatch raw =>
    cases hd : decoded raw with
    | none => rw [step_dispatch_none s raw hd]; exact hw
    | some pr =>
      obtain ⟨u, p⟩ := pr
      rw [step_dispatch_some s raw u p hd]
      simp only [notifies, hd, decide_eq_false_iff_not] at hnot
      cases hw with
      | inl h => left; simp [h, notifyOne]
      | inr h =>
        right
        simp only [h, Option.map_some]
        simp [notifyOne, Ne.symm hnot]
  | runWaiter k =>
    rw [step_runWaiter_waiters]
    by_cases hk : i = k
    · subst hk
      cases hw with
      | inl h => right; simp [h, await_message_step, hname]
      | inr h => right; simp [h, await_message_step]
    · simp only [hk, if_false]
      exact hw
  | runAny j => rw [step_runAny_waiters]; exact hw
  | runAll j => rw [step_runAll_waiters]; exact hw

/-- Trace version of step_waiter_unnotified: across any schedule containing
no dispatch for topic t, a waiter on t never advances past registration. -/
theorem runEvents_waiter_unnotified (evs : List Event) (s : Sys) (i : Nat)
    (t : Topic) (name : String) (hname : topicOfName name = some t)
    (hnot : ∀ e ∈ evs, notifies t e = false)
    (hw : s.waiters i = some (.start name) ∨ s.waiters i = some (.waiting t)) :
    (runEvents s evs).waiters i = some (.start name) ∨
      (runEvents s evs).waiters i = some (.waiting t) := by
  induction evs generalizing s with
  | nil => exact hw
  | cons e evs ih =>
    rw [runEvents_cons]
    exact ih (step s e)
      (fun e' he' => hnot e' (List.mem_cons_of_mem e he'))
      (step_waiter_unnotified s e i t name hname (hnot e (List.mem_cons_self e evs)) hw)

/-- One-step preservation: a waiter that has been woken by notify_all, or has
already returned, can only move forward to returning its topic name; no event
can put it back to sleep or lose its wakeup. -/
theorem step_waiter_resolved (s : Sys) (e : Event) (i : Nat) (t : Topic)
    (hw : s.waiters i = some (.woken t) ∨ s.waiters i = some (.done (topicName t))) :
    (step s e).waiters i = some (.woken t) ∨
      (step s e).waiters i = some (.done (topicName t)) := by
  cases e with
  | dispatch raw =>
    cases hd : decoded raw with
    | none => rw [step_dispatch_none s raw hd]; exact hw
    | some pr =>
      obtain ⟨u, p⟩ := pr
      rw [step_dispatch_some s raw u p hd]
      cases hw with
      | inl h => left; simp [h, notifyOne]
      | inr h => right; simp [h, notifyOne]
  | runWaiter k =>
    rw [step_runWaiter_waiters]
    by_cases hk : i = k
    · subst hk
      cases hw with
      | inl h => right; simp [h, await_message_step]
      | inr h => right; simp [h, await_message_step]
    · simp only [hk, if_false]
      exact hw
  | runAny j => rw [step_runAny_waiters]; exact hw
  | runAll j => rw [step_runAll_waiters]; exact hw

/-- Trace version of step_waiter_resolved. -/
theorem runEvents_waiter_resolved (evs : List Event) (s : Sys) (i : Nat)
    (t : Topic)
    (hw : s.waiters i = some (.woken t) ∨ s.waiters i = some (.done (topicName t))) :
    (runEvents s evs).waiters i = some (.woken t) ∨
      (runEvents s evs).waiters i = some (.done (topicName t)) := by
  induction evs generalizing s with
  | nil => exact hw
  | cons e evs ih =>
    rw [runEvents_cons]
    exact ih (step s e) (step_waiter_resolved s e i t hw)

/-- A waiter that has returned stays returned with the same name under every
event: a finished task never runs again. -/
theorem step_waiter_done (s : Sys) (e : Event) (i : Nat) (name : String)
    (hw : s.waiters i = some (.done name)) :
    (step s e).waiters i = some (.done name) := by
  cases e with
  | dispatch raw =>
    cases hd : decoded raw with
    | none => rw [step_dispatch_none s raw hd]; exact hw
    | some pr =>
      obtain ⟨u, p⟩ := pr
      rw [step_dispatch_some s raw u p hd]
      simp [hw, notifyOne]
  | runWaiter k =>
    rw [step_runWaiter_waiters]
    by_cases hk : i = k
    · subst hk; simp [hw, await_message_step]
    · simp only [hk, if_false]; exact hw
  | runAny j => rw [step_runAny_waiters]; exact hw
  | runAll j => rw [step_runAll_waiters]; exact hw

/-- Trace version of step_waiter_done. -/
theorem runEvents_waiter_done (evs : List Event) (s : Sys) (i : Nat)
    (name : String) (hw : s.waiters i = some (.done name)) :
    (runEvents s evs).waiters i = some (.done name) := by
  induction evs generalizing s with
  | nil => exact hw
  | cons e evs ih =>
    rw [runEvents_cons]
    exact ih (step s e) (step_waiter_done s e i name hw)

theorem step_runAny_anys_eq (s : Sys) (j k : Nat) :
    (step s (.runAny j)).anys k =
      if k = j then (s.anys j).map (await_any_messages_step s.waiters)
      else s.anys k := by
  simp only [step]
  cases ha : s.anys j with
  | none =>
    by_cases hk : k = j
    · simp [hk, ha]
    · simp [hk]
  | some aw =>
    by_cases hk : k = j
    · simp [hk, ha]
    · simp [hk]

theorem step_runAll_alls_eq (s : Sys) (j k : Nat) :
    (step s (.runAll j)).alls k =
      if k = j then (s.alls j).map (await_all_messages_step s.waiters)
      else s.alls k := by
  simp only [step]
  cases ha : s.alls j with
  | none =>
    by_cases hk : k = j
    · simp [hk, ha]
    · simp [hk]
  | some aw =>
    by_cases hk : k = j
    · simp [hk, ha]
    · simp [hk]

theorem State.get_set_self (st : State) (t : Topic) (v : Json) :
    (st.set t v).get t = v := by
  cases t <;> rfl

theorem State.get_set_ne (st : State) (t u : Topic) (v : Json) (h : u ≠ t) :
    (st.set t v).get u = st.get u := by
  cases t <;> cases u <;> first | rfl | exact absurd rfl h

theorem doneChild_completedChild (w : Option WaiterState)
    (h : doneChild w = true) : completedChild w = true := by
  cases w with
  | none => simp [doneChild] at h
  | some w' => cases w' <;> simp_all [doneChild, completedChild]

theorem doneNameOf_eq_some (w : Option WaiterState) (nm : String) :
    doneNameOf w = some nm ↔ w = some (.done nm) := by
  cases w with
  | none => simp [doneNameOf]
  | some w' => cases w' <;> simp [doneNameOf]

/-- A concrete configuration for witness instances: the initial store, one
await_message task already registered on topic a, and no composite waits. -/
def demoSys : Sys :=
  { store := initialState
  , waiters := fun k => if k = 0 then some (.waiting .a) else none
  , anys := fun _ => none
  , alls := fun _ => none }

/-- C5: dispatching a well-parsed message whose declared type has no
registered handler raises UnknownMessageType inside the decoder task before
any handler runs, so the message is dropped and the whole system, the topic
store included, is left unchanged: no payload moves and no waiter is woken. -/
theorem unknown_type_rejection (s : Sys) (data ty p : Json)
    (hty : data.lookup "type" = some ty)
    (hp : data.lookup "payload" = some p)
    (hun : decoderForType ty = none) :
    protocol_x_decoder (some data) s.store = .error (.unknownMessageType ty) ∧
    step s (.dispatch (some data)) = s := by
  constructor
  · simp [protocol_x_decoder, hty, hp, hun]
  · exact step_dispatch_none s (some data) (by simp [decoded, hty, hp, hun])

theorem unknown_type_rejection_witness :
    protocol_x_decoder (some (.obj [("type", .str "z"), ("payload", .obj [])]))
        demoSys.store = .error (.unknownMessageType (.str "z")) ∧
    step demoSys (.dispatch (some (.obj [("type", .str "z"), ("payload", .obj [])])))
        = demoSys :=
  unknown_type_rejection demoSys (.obj [("type", .str "z"), ("payload", .obj [])])
    (.str "z") (.obj []) rfl rfl rfl

/-- A message that is well-formed JSON with a registered type whose payload
is not a mapping at all: the number 42. -/
def badPayloadMsg : Option Json :=
  some (.obj [("type", .str "a"), ("payload", .num 42)])

/-- C6 counterexample: the decoder does not validate the payload shape.  The
message with type a and payload 42, a payload that is not a mapping of
string to number, is not rejected as malformed: dispatch succeeds, the
payload of topic a is replaced by the bare number 42, and the waiter
registered on topic a is woken. -/
theorem malformed_payload_counterexample :
    protocol_x_decoder badPayloadMsg initialState =
      .ok (initialState.set .a (.num 42), .a) ∧
    (step demoSys (.dispatch badPayloadMsg)).store.a = .num 42 ∧
    initialState.a ≠ .num 42 ∧
    (step demoSys (.dispatch badPayloadMsg)).waiters 0 = some (.woken .a) := by
  refine ⟨rfl, rfl, ?_, rfl⟩
  intro h
  exact Json.noConfusion h

/-- C6 amended: a message fails as MalformedMessage exactly when it is
unparseable or the parsed value has no type field or no payload field; the
shape of the payload itself is never validated (see the counterexample).
On such a failure the message is dropped and the system is unchanged. -/
theorem malformed_characterization (raw : Option Json) (st : State) :
    (protocol_x_decoder raw st = .error .malformedMessage ↔
      raw = none ∨ ∃ data, raw = some data ∧
        (data.lookup "type" = none ∨ data.lookup "payload" = none)) ∧
    (protocol_x_decoder raw st = .error .malformedMessage →
      ∀ s : Sys, s.store = st → step s (.dispatch raw) = s) := by
  constructor
  · constructor
    · intro h
      cases raw with
      | none => exact Or.inl rfl
      | some data =>
        right
        cases hty : data.lookup "type" with
        | none => exact ⟨data, rfl, Or.inl hty⟩
        | some ty =>
          cases hp : data.lookup "payload" with
          | none => exact ⟨data, rfl, Or.inr hp⟩
          | some p =>
            cases hdec : decoderForType ty with
            | none => simp [protocol_x_decoder, hty, hp, hdec] at h
            | some t => simp [protocol_x_decoder, hty, hp, hdec] at h
    · intro h
      cases h with
      | inl h => subst h; rfl
      | inr h =>
        obtain ⟨data, rfl, h⟩ := h
        cases h with
        | inl hty => simp [protocol_x_decoder, hty]
        | inr hp =>
          cases hty : data.lookup "type" with
          | none => simp [protocol_x_decoder, hty]
          | some ty => simp [protocol_x_decoder, hty, hp]
  · intro h s hs
    apply step_dispatch_none
    cases hd : decoded raw with
    | none => rfl
    | some pr =>
      obtain ⟨t, p⟩ := pr
      rw [protocol_x_decoder_eq, hd] at h
      exact Except.noConfusion h

theorem malformed_characterization_witness :
    protocol_x_decoder (some (.obj [("x", .num 0)])) demoSys.store
        = .error .malformedMessage ∧
    step demoSys (.dispatch (some (.obj [("x", .num 0)]))) = demoSys := by
  have h := (malformed_characterization (some (.obj [("x", .num 0)])) demoSys.store).1.mpr
    (Or.inr ⟨.obj [("x", .num 0)], rfl, Or.inl rfl⟩)
  exact ⟨h, (malformed_characterization (some (.obj [("x", .num 0)])) demoSys.store).2 h demoSys rfl⟩

/-- C10: a successful dispatch (a parsed message with a type field carrying
a registered type and a payload field) stores the payload object wholesale:
the payload of the selected topic becomes exactly the message payload, so
sub-keys absent from it are gone rather than merged, and every other topic
keeps its previous payload unchanged. -/
theorem dispatch_wholesale_replacement (data ty p : Json) (st : State) (t : Topic)
    (hty : data.lookup "type" = some ty)
    (hp : data.lookup "payload" = some p)
    (hdec : decoderForType ty = some t) :
    protocol_x_decoder (some data) st = .ok (st.set t p, t) ∧
    (st.set t p).get t = p ∧
    ∀ u, u ≠ t → (st.set t p).get u = st.get u := by
  refine ⟨?_, State.get_set_self st t p, fun u hu => State.get_set_ne st t u p hu⟩
  simp [protocol_x_decoder, hty, hp, hdec]

theorem dispatch_wholesale_replacement_witness :
    protocol_x_decoder (some (.obj [("type", .str "b"), ("payload", .obj [("9", .num 5)])]))
        initialState = .ok (initialState.set .b (.obj [("9", .num 5)]), .b) ∧
    (initialState.set .b (.obj [("9", .num 5)])).get .b = .obj [("9", .num 5)] ∧
    (initialState.set .b (.obj [("9", .num 5)])).get .a = initialState.get .a :=
  have h := dispatch_wholesale_replacement
    (.obj [("type", .str "b"), ("payload", .obj [("9", .num 5)])])
    (.str "b") (.obj [("9", .num 5)]) initialState .b rfl rfl rfl
  ⟨h.1, h.2.1, h.2.2 .a (fun hab => Topic.noConfusion hab)⟩

theorem runEvents_append (s : Sys) (l₁ l₂ : List Event) :
    runEvents s (l₁ ++ l₂) = runEvents (runEvents s l₁) l₂ := by
  simp [runEvents, List.foldl_append]

/-- C1: no missed wakeup.  If a waiter is registered on topic t when a
dispatch of a message for t begins, then that single dispatch step performs
the payload write and marks the waiter woken together, with no suspension in
between, and the waiter subsequently returns the topic name at whatever
point the loop next schedules it, whatever else runs before or after. -/
theorem no_missed_wakeup (s : Sys) (i : Nat) (t : Topic) (p : Json)
    (evs₁ evs₂ : List Event)
    (hw : s.waiters i = some (.waiting t)) :
    (step s (.dispatch (mkMsg t p))).store = s.store.set t p ∧
    (step s (.dispatch (mkMsg t p))).waiters i = some (.woken t) ∧
    (runEvents (step s (.dispatch (mkMsg t p))) (evs₁ ++ .runWaiter i :: evs₂)).waiters i
      = some (.done (topicName t)) := by
  have E := step_dispatch_some s (mkMsg t p) t p (decoded_mkMsg t p)
  have hwoken : (step s (.dispatch (mkMsg t p))).waiters i = some (.woken t) := by
    rw [E]; simp [hw, notifyOne]
  refine ⟨by rw [E], hwoken, ?_⟩
  have hsplit : evs₁ ++ Event.runWaiter i :: evs₂ = (evs₁ ++ [Event.runWaiter i]) ++ evs₂ := by
    simp
  rw [hsplit, runEvents_append, runEvents_append]
  have h₁ := runEvents_waiter_resolved evs₁ (step s (.dispatch (mkMsg t p))) i t (Or.inl hwoken)
  have h₂ : (runEvents (runEvents (step s (.dispatch (mkMsg t p))) evs₁)
      [Event.runWaiter i]).waiters i = some (.done (topicName t)) := by
    have hone : runEvents (runEvents (step s (.dispatch (mkMsg t p))) evs₁) [Event.runWaiter i]
        = step (runEvents (step s (.dispatch (mkMsg t p))) evs₁) (.runWaiter i) := rfl
    rw [hone, step_runWaiter_waiters]
    cases h₁ with
    | inl h => simp [h, await_message_step]
    | inr h => simp [h, await_message_step]
  exact runEvents_waiter_done evs₂ _ i (topicName t) h₂

theorem no_missed_wakeup_witness :
    demoSys.waiters 0 = some (.waiting .a) ∧
    (runEvents (step demoSys (.dispatch (mkMsg .a (.num 7))))
        ([] ++ .runWaiter 0 :: [])).waiters 0 = some (.done (topicName .a)) :=
  ⟨rfl, (no_missed_wakeup demoSys 0 .a (.num 7) [] [] rfl).2.2⟩

/-- C9: no already-happened shortcut.  A wait on topic t that has begun (its
body may or may not yet have run to registration) resolves only on a
notification that fires after that point: across any schedule containing no
successful dispatch for t, the waiter never returns, regardless of any
notifications for t that predate the schedule; it is still at or before its
registration point. -/
theorem await_topic_no_shortcut (s : Sys) (i : Nat) (t : Topic) (name : String)
    (evs : List Event) (hname : topicOfName name = some t)
    (hw : s.waiters i = some (.start name) ∨ s.waiters i = some (.waiting t))
    (hnot : ∀ e ∈ evs, notifies t e = false) :
    ((runEvents s evs).waiters i = some (.start name) ∨
      (runEvents s evs).waiters i = some (.waiting t)) ∧
    ∀ n, (runEvents s evs).waiters i ≠ some (.done n) := by
  have h := runEvents_waiter_unnotified evs s i t name hname hnot hw
  refine ⟨h, fun n hdone => ?_⟩
  cases h with
  | inl h' => rw [h'] at hdone; simp at hdone
  | inr h' => rw [h'] at hdone; simp at hdone

theorem await_topic_no_shortcut_witness :
    (runEvents demoSys [.dispatch (mkMsg .b (.num 1)), .runWaiter 0]).waiters 0
      ≠ some (.done "a") :=
  (await_topic_no_shortcut demoSys 0 .a "a"
    [.dispatch (mkMsg .b (.num 1)), .runWaiter 0] rfl (Or.inr rfl)
    (by decide)).2 "a"

/-- One-step preservation of the await_all safety invariant: while some
child waiter on topic t is still unnotified, the gather call is either still
pending with the same children, or has re-raised a child KeyError; any event
not notifying t keeps it so. -/
theorem step_all_safe (s : Sys) (e : Event) (i j : Nat) (t : Topic)
    (name : String) (children : List Nat) (names : List String)
    (hname : topicOfName name = some t) (hnot : notifies t e = false)
    (hi : i ∈ children)
    (hw : s.waiters i = some (.start name) ∨ s.waiters i = some (.waiting t))
    (hj : s.alls j = some (.pending children names) ∨ s.alls j = some .resolvedErr) :
    ((step s e).waiters i = some (.start name) ∨
      (step s e).waiters i = some (.waiting t)) ∧
    ((step s e).alls j = some (.pending children names) ∨
      (step s e).alls j = some .resolvedErr) := by
  refine ⟨step_waiter_unnotified s e i t name hname hnot hw, ?_⟩
  cases e with
  | dispatch raw => rw [step_dispatch_alls]; exact hj
  | runWaiter k => rw [step_runWaiter_alls]; exact hj
  | runAny k => rw [step_runAny_alls]; exact hj
  | runAll k =>
    rw [step_runAll_alls_eq]
    by_cases hk : j = k
    · subst hk
      simp only [if_pos rfl]
      cases hj with
      | inl h =>
        rw [h]
        by_cases hfail : children.any (fun x => failedChild (s.waiters x)) = true
        · right; simp [await_all_messages_step, hfail]
        · have hnd : children.all (fun x => doneChild (s.waiters x)) = false := by
            rw [Bool.eq_false_iff]
            intro hall
            have := List.all_eq_true.mp hall i hi
            cases hw with
            | inl h' => rw [h'] at this; simp [doneChild] at this
            | inr h' => rw [h'] at this; simp [doneChild] at this
          left
          simp only [Bool.not_eq_true] at hfail
          simp [await_all_messages_step, hfail, hnd]
      | inr h =>
        rw [h]
        right
        simp [await_all_messages_step]
    · simp only [if_neg hk]
      exact hj

/-- Trace version of step_all_safe. -/
theorem runEvents_all_safe (evs : List Event) (s : Sys) (i j : Nat) (t : Topic)
    (name : String) (children : List Nat) (names : List String)
    (hname : topicOfName name = some t)
    (hnot : ∀ e ∈ evs, notifies t e = false)
    (hi : i ∈ children)
    (hw : s.waiters i = some (.start name) ∨ s.waiters i = some (.waiting t))
    (hj : s.alls j = some (.pending children names) ∨ s.alls j = some .resolvedErr) :
    ((runEvents s evs).alls j = some (.pending children names) ∨
      (runEvents s evs).alls j = some .resolvedErr) := by
  induction evs generalizing s with
  | nil => exact hj
  | cons e evs ih =>
    rw [runEvents_cons]
    have h := step_all_safe s e i j t name children names hname
      (hnot e (List.mem_cons_self e evs)) hi hw hj
    exact ih (step s e) (fun e' he' => hnot e' (List.mem_cons_of_mem e he')) h.1 h.2

/-- C4: all-wait completeness.  An await_all_messages call whose argument
set contains a topic never resolves before that topic notifies: across any
schedule containing no successful dispatch for topic t, where some child of
the gather waits on t, the call never returns its name tuple — it is still
pending or has re-raised a child error, never resolved. -/
theorem await_all_complete (s : Sys) (i j : Nat) (t : Topic) (name : String)
    (children : List Nat) (names : List String) (evs : List Event)
    (hname : topicOfName name = some t)
    (hi : i ∈ children)
    (hw : s.waiters i = some (.start name) ∨ s.waiters i = some (.waiting t))
    (hj : s.alls j = some (.pending children names))
    (hnot : ∀ e ∈ evs, notifies t e = false) :
    ∀ r, (runEvents s evs).alls j ≠ some (.resolvedOk r) := by
  intro r hr
  have h := runEvents_all_safe evs s i j t name children names hname hnot hi hw
    (Or.inl hj)
  cases h with
  | inl h => rw [h] at hr; simp at hr
  | inr h => rw [h] at hr; simp at hr

/-- A concrete configuration with an await_all_messages call over topics a
and b: two child await_message tasks not yet run, and the gather pending on
both. -/
def demoSysAll : Sys :=
  { store := initialState
  , waiters := fun k =>
      if k = 0 then some (.start "a") else if k = 1 then some (.start "b") else none
  , anys := fun _ => none
  , alls := fun k => if k = 0 then some (.pending [0, 1] ["a", "b"]) else none }

theorem await_all_complete_witness :
    (runEvents demoSysAll [.runWaiter 0, .runWaiter 1, .dispatch (mkMsg .a (.num 1)),
        .runWaiter 0, .runAll 0]).alls 0 ≠ some (.resolvedOk ["a", "b"]) :=
  await_all_complete demoSysAll 1 0 .b "b" [0, 1] ["a", "b"]
    [.runWaiter 0, .runWaiter 1, .dispatch (mkMsg .a (.num 1)),
        .runWaiter 0, .runAll 0]
    rfl (by decide) (Or.inl rfl) rfl (by decide) ["a", "b"]

/-- C3: any-wait inclusiveness.  An await_any_messages call (1) stays
suspended as long as none of its child waiters has completed; (2) when it is
scheduled after at least one child returned and none raised, it resolves and
the returned collection holds exactly the names of the children that are
done by that point — ties are all included, not just the earliest; and (3)
concretely, when two named topics are both dispatched before the call is
rescheduled, both names are returned. -/
theorem await_any_inclusive (s : Sys) (j : Nat) (children : List Nat)
    (hj : s.anys j = some (.pending children)) :
    ((∀ i ∈ children, completedChild (s.waiters i) = false) →
      (step s (.runAny j)).anys j = some (.pending children)) ∧
    ((∃ i ∈ children, doneChild (s.waiters i) = true) →
     (∀ i ∈ children, failedChild (s.waiters i) = false) →
      ∃ r, (step s (.runAny j)).anys j = some (.resolvedOk r) ∧
        ∀ nm, nm ∈ r ↔ ∃ i ∈ children, s.waiters i = some (.done nm)) ∧
    (∀ i₁ i₂ t₁ t₂ p₁ p₂, children = [i₁, i₂] → i₁ ≠ i₂ →
      s.waiters i₁ = some (.waiting t₁) → s.waiters i₂ = some (.waiting t₂) →
      (runEvents s [.dispatch (mkMsg t₁ p₁), .dispatch (mkMsg t₂ p₂),
          .runWaiter i₁, .runWaiter i₂, .runAny j]).anys j =
        some (.resolvedOk [topicName t₁, topicName t₂])) := by
  refine ⟨?_, ?_, ?_⟩
  · intro hall
    rw [step_runAny_anys_eq, if_pos rfl, hj]
    have hany : children.any (fun x => completedChild (s.waiters x)) = false := by
      rw [Bool.eq_false_iff]
      intro h
      obtain ⟨x, hx, hcx⟩ := List.any_eq_true.mp h
      rw [hall x hx] at hcx
      exact Bool.noConfusion hcx
    simp [await_any_messages_step, hany]
  · intro hdone hnofail
    obtain ⟨i0, hi0, hd0⟩ := hdone
    have hcomp : children.any (fun x => completedChild (s.waiters x)) = true :=
      List.any_eq_true.mpr ⟨i0, hi0, doneChild_completedChild _ hd0⟩
    have hfail : children.any (fun x => failedChild (s.waiters x)) = false := by
      rw [Bool.eq_false_iff]
      intro h
      obtain ⟨x, hx, hfx⟩ := List.any_eq_true.mp h
      rw [hnofail x hx] at hfx
      exact Bool.noConfusion hfx
    refine ⟨children.filterMap (fun x => doneNameOf (s.waiters x)), ?_, ?_⟩
    · rw [step_runAny_anys_eq, if_pos rfl, hj]
      simp [await_any_messages_step, hcomp, hfail]
    · intro nm
      rw [List.mem_filterMap]
      constructor
      · rintro ⟨x, hx, hnx⟩
        exact ⟨x, hx, (doneNameOf_eq_some _ _).mp hnx⟩
      · rintro ⟨x, hx, hnx⟩
        exact ⟨x, hx, (doneNameOf_eq_some _ _).mpr hnx⟩
  · intro i₁ i₂ t₁ t₂ p₁ p₂ hch hne h₁ h₂
    have E₁ := step_dispatch_some s (mkMsg t₁ p₁) t₁ p₁ (decoded_mkMsg t₁ p₁)
    have A₁ : (step s (.dispatch (mkMsg t₁ p₁))).waiters i₁ = some (.woken t₁) := by
      rw [E₁]; simp [h₁, notifyOne]
    have B₁ : (step s (.dispatch (mkMsg t₁ p₁))).waiters i₂ = some (.woken t₂) ∨
        (step s (.dispatch (mkMsg t₁ p₁))).waiters i₂ = some (.waiting t₂) := by
      rw [E₁]
      by_cases ht : t₂ = t₁
      · subst ht; left; simp [h₂, notifyOne]
      · right; simp [h₂, notifyOne, ht]
    set s₁ := step s (.dispatch (mkMsg t₁ p₁)) with hs₁
    have E₂ := step_dispatch_some s₁ (mkMsg t₂ p₂) t₂ p₂ (decoded_mkMsg t₂ p₂)
    have A₂ : (step s₁ (.dispatch (mkMsg t₂ p₂))).waiters i₁ = some (.woken t₁) := by
      rw [E₂]; simp [A₁, notifyOne]
    have B₂ : (step s₁ (.dispatch (mkMsg t₂ p₂))).waiters i₂ = some (.woken t₂) := by
      rw [E₂]
      cases B₁ with
      | inl h => simp [h, notifyOne]
      | inr h => simp [h, notifyOne]
    set s₂ := step s₁ (.dispatch (mkMsg t₂ p₂)) with hs₂
    have A₃ : (step s₂ (.runWaiter i₁)).waiters i₁ = some (.done (topicName t₁)) := by
      rw [step_runWaiter_waiters, if_pos rfl, A₂]
      simp [await_message_step]
    have B₃ : (step s₂ (.runWaiter i₁)).waiters i₂ = some (.woken t₂) := by
      rw [step_runWaiter_waiters, if_neg (Ne.symm hne)]
      exact B₂
    set s₃ := step s₂ (.runWaiter i₁) with hs₃
    have A₄ : (step s₃ (.runWaiter i₂)).waiters i₁ = some (.done (topicName t₁)) := by
      rw [step_runWaiter_waiters, if_neg hne]
      exact A₃
    have B₄ : (step s₃ (.runWaiter i₂)).waiters i₂ = some (.done (topicName t₂)) := by
      rw [step_runWaiter_waiters, if_pos rfl, B₃]
      simp [await_message_step]
    set s₄ := step s₃ (.runWaiter i₂) with hs₄
    have hj₄ : s₄.anys j = some (.pending children) := by
      rw [hs₄, step_runWaiter_anys, hs₃, step_runWaiter_anys, hs₂,
        step_dispatch_anys, hs₁, step_dispatch_anys]
      exact hj
    have hrun : runEvents s [.dispatch (mkMsg t₁ p₁), .dispatch (mkMsg t₂ p₂),
        .runWaiter i₁, .runWaiter i₂, .runAny j] = step s₄ (.runAny j) := rfl
    rw [hrun, step_runAny_anys_eq, if_pos rfl, hj₄, hch]
    simp [await_any_messages_step, A₄, B₄, completedChild, failedChild, doneNameOf]

/-- A concrete configuration with an await_any_messages call over topics a
and b: both child await_message tasks already registered, the call pending
on both. -/
def demoSysAny : Sys :=
  { store := initialState
  , waiters := fun k =>
      if k = 0 then some (.waiting .a) else if k = 1 then some (.waiting .b) else none
  , anys := fun k => if k = 0 then some (.pending [0, 1]) else none
  , alls := fun _ => none }

theorem await_any_inclusive_witness :
    (runEvents demoSysAny [.dispatch (mkMsg .a (.num 1)), .dispatch (mkMsg .b (.num 1)),
        .runWaiter 0, .runWaiter 1, .runAny 0]).anys 0
      = some (.resolvedOk [topicName .a, topicName .b]) :=
  (await_any_inclusive demoSysAny 0 [0, 1] rfl).2.2 0 1 .a .b (.num 1) (.num 1)
    rfl (by decide) rfl rfl

/-- C2 counterexample: await_any_messages does not detach the losing waits.
In a run where topic a is dispatched and the call over topics a and b
resolves with just a, the child waiter for b is still registered on the b
condition after the call has resolved: a notification registration on a
non-winning topic channel remains. -/
theorem await_any_leak_counterexample :
    (runEvents demoSysAny [.dispatch (mkMsg .a (.num 1)), .runWaiter 0, .runAny 0]).anys 0
      = some (.resolvedOk ["a"]) ∧
    (runEvents demoSysAny [.dispatch (mkMsg .a (.num 1)), .runWaiter 0, .runAny 0]).waiters 1
      = some (.waiting .b) :=
  ⟨rfl, rfl⟩

/-- C2 amended: the losing waits of an await_any_messages call are abandoned
rather than cancelled — asyncio.wait leaves the pending child tasks running,
so their registrations stay on their topic conditions (see the leak
counterexample) — but each abandoned waiter is harmless: on the next
dispatch of its topic it is woken and, when scheduled, finishes with the
topic name, while changing nothing else — not the store, not any other
waiter, not any composite wait — and once finished it never runs again, so
leaked registrations never wake any later unrelated wait spuriously and do
not accumulate past their topic next notifying. -/
theorem await_any_losing_waiter_detaches (s : Sys) (i : Nat) (t : Topic) (p : Json)
    (hw : s.waiters i = some (.waiting t)) :
    (step (step s (.dispatch (mkMsg t p))) (.runWaiter i)).waiters i
      = some (.done (topicName t)) ∧
    (step (step s (.dispatch (mkMsg t p))) (.runWaiter i)).store
      = (step s (.dispatch (mkMsg t p))).store ∧
    (∀ k, k ≠ i → (step (step s (.dispatch (mkMsg t p))) (.runWaiter i)).waiters k
      = (step s (.dispatch (mkMsg t p))).waiters k) ∧
    (step (step s (.dispatch (mkMsg t p))) (.runWaiter i)).anys
      = (step s (.dispatch (mkMsg t p))).anys ∧
    (step (step s (.dispatch (mkMsg t p))) (.runWaiter i)).alls
      = (step s (.dispatch (mkMsg t p))).alls ∧
    ∀ evs, (runEvents (step (step s (.dispatch (mkMsg t p))) (.runWaiter i)) evs).waiters i
      = some (.done (topicName t)) := by
  have E := step_dispatch_some s (mkMsg t p) t p (decoded_mkMsg t p)
  have hwoken : (step s (.dispatch (mkMsg t p))).waiters i = some (.woken t) := by
    rw [E]; simp [hw, notifyOne]
  have hdone : (step (step s (.dispatch (mkMsg t p))) (.runWaiter i)).waiters i
      = some (.done (topicName t)) := by
    rw [step_runWaiter_waiters, if_pos rfl, hwoken]
    simp [await_message_step]
  refine ⟨hdone, step_runWaiter_store _ i, ?_, step_runWaiter_anys _ i,
    step_runWaiter_alls _ i, ?_⟩
  · intro k hk
    rw [step_runWaiter_waiters, if_neg hk]
  · intro evs
    exact runEvents_waiter_done evs _ i (topicName t) hdone

theorem await_any_losing_waiter_detaches_witness :
    (step (step demoSysAny (.dispatch (mkMsg .b (.num 2)))) (.runWaiter 1)).waiters 1
      = some (.done (topicName .b)) ∧
    (step (step demoSysAny (.dispatch (mkMsg .b (.num 2)))) (.runWaiter 1)).anys
      = (step demoSysAny (.dispatch (mkMsg .b (.num 2)))).anys ∧
    (runEvents (step (step demoSysAny (.dispatch (mkMsg .b (.num 2)))) (.runWaiter 1))
        [.dispatch (mkMsg .b (.num 4))]).waiters 1 = some (.done (topicName .b)) :=
  have h := await_any_losing_waiter_detaches demoSysAny 1 .b (.num 2) rfl
  ⟨h.1, h.2.2.2.1, h.2.2.2.2.2 [.dispatch (mkMsg .b (.num 4))]⟩

/-- C7: unknown topic fails immediately.  A wait on a name that is not a
registered topic fails with KeyError at its very first scheduling segment,
before registering on any condition and without needing any dispatch or
deadline: the waiter goes straight from start to failed, the store is
untouched, and an await_any_messages or await_all_messages call containing
that child re-raises the error at its next scheduling, resolving in error
rather than suspending further. -/
theorem unknown_topic_immediate (s : Sys) (i : Nat) (name : String)
    (hname : topicOfName name = none)
    (hw : s.waiters i = some (.start name)) :
    (step s (.runWaiter i)).waiters i = some .failed ∧
    (step s (.runWaiter i)).store = s.store ∧
    (∀ j children, s.anys j = some (.pending children) → i ∈ children →
      (step (step s (.runWaiter i)) (.runAny j)).anys j = some .resolvedErr) ∧
    (∀ j children names, s.alls j = some (.pending children names) → i ∈ children →
      (step (step s (.runWaiter i)) (.runAll j)).alls j = some .resolvedErr) := by
  have hfailed : (step s (.runWaiter i)).waiters i = some .failed := by
    rw [step_runWaiter_waiters, if_pos rfl, hw]
    simp [await_message_step, hname]
  refine ⟨hfailed, step_runWaiter_store s i, ?_, ?_⟩
  · intro j children hj hi
    have hj' : (step s (.runWaiter i)).anys j = some (.pending children) := by
      rw [step_runWaiter_anys]; exact hj
    rw [step_runAny_anys_eq, if_pos rfl, hj']
    have hcomp : children.any
        (fun x => completedChild ((step s (.runWaiter i)).waiters x)) = true :=
      List.any_eq_true.mpr ⟨i, hi, by rw [hfailed]; rfl⟩
    have hfail : children.any
        (fun x => failedChild ((step s (.runWaiter i)).waiters x)) = true :=
      List.any_eq_true.mpr ⟨i, hi, by rw [hfailed]; rfl⟩
    simp [await_any_messages_step, hcomp, hfail]
  · intro j children names hj hi
    have hj' : (step s (.runWaiter i)).alls j = some (.pending children names) := by
      rw [step_runWaiter_alls]; exact hj
    rw [step_runAll_alls_eq, if_pos rfl, hj']
    have hfail : children.any
        (fun x => failedChild ((step s (.runWaiter i)).waiters x)) = true :=
      List.any_eq_true.mpr ⟨i, hi, by rw [hfailed]; rfl⟩
    simp [await_all_messages_step, hfail]

/-- A concrete configuration with an await_any_messages call over the
unregistered name x and the topic a. -/
def demoSysUnknown : Sys :=
  { store := initialState
  , waiters := fun k =>
      if k = 0 then some (.start "x") else if k = 1 then some (.start "a") else none
  , anys := fun k => if k = 0 then some (.pending [0, 1]) else none
  , alls := fun _ => none }

theorem unknown_topic_immediate_witness :
    (step demoSysUnknown (.runWaiter 0)).waiters 0 = some .failed ∧
    (step (step demoSysUnknown (.runWaiter 0)) (.runAny 0)).anys 0 = some .resolvedErr :=
  have h := unknown_topic_immediate demoSysUnknown 0 "x" rfl rfl
  ⟨h.1, h.2.2.1 0 [0, 1] rfl (by decide)⟩

/-- Modelled from the spec: the outcome of a deadline-bounded wait.  The
demo bounds message_monitor (lines 175 to 195) with the external
async_timeout library (imported on line 5, used on line 179), whose code is
not part of this repository, so its behavior is taken from the spec: the
wrapped wait either resolves with the underlying await_any_messages result
(a list of topic names), or the deadline expires first and the distinct
outcome deadlineExceeded (the TimeoutError caught on line 194) is surfaced. -/
inductive TimeoutOutcome where
  | pending : TimeoutOutcome
  | resolved (r : List String) : TimeoutOutcome
  | deadlineExceeded : TimeoutOutcome
deriving DecidableEq

/-- Modelled from the spec: the two things that can happen to a pending
deadline-bounded wait — the underlying wait resolves with a result, or the
timer fires. -/
inductive TimeoutEvent where
  | childResolved (r : List String) : TimeoutEvent
  | timerFire : TimeoutEvent
deriving DecidableEq

/-- Modelled from the spec: the race between the underlying wait and the
timer.  Whichever fires first while the wrapper is pending fixes the
outcome; the loser is cancelled, so later events no longer change anything:
no transition leaves a terminal state. -/
def with_timeout_step : TimeoutOutcome → TimeoutEvent → TimeoutOutcome
  | .pending, .childResolved r => .resolved r
  | .pending, .timerFire => .deadlineExceeded
  | o, _ => o

/-- Modelled from the spec: a deadline-bounded wait observed through a
sequence of race events, starting pending. -/
def with_timeout_run (evs : List TimeoutEvent) : TimeoutOutcome :=
  evs.foldl with_timeout_step .pending

theorem with_timeout_step_terminal (o : TimeoutOutcome) (e : TimeoutEvent)
    (h : o ≠ .pending) : with_timeout_step o e = o := by
  cases o with
  | pending => exact absurd rfl h
  | resolved r => cases e <;> rfl
  | deadlineExceeded => cases e <;> rfl

theorem with_timeout_foldl_terminal (evs : List TimeoutEvent) (o : TimeoutOutcome)
    (h : o ≠ .pending) : evs.foldl with_timeout_step o = o := by
  induction evs with
  | nil => rfl
  | cons e evs ih => rw [List.foldl_cons, with_timeout_step_terminal o e h]; exact ih

theorem with_timeout_step_ne_pending (e : TimeoutEvent) :
    with_timeout_step .pending e ≠ .pending := by
  cases e <;> intro h <;> exact TimeoutOutcome.noConfusion h

/-- C8: timeout exclusivity.  Once either race event has occurred, the
deadline-bounded wait has resolved (never neither): its outcome is fixed by
whichever of the underlying wait and the timer fired first and no later
event revisits it (never both), and the outcome is an underlying result
exactly when it is not deadlineExceeded, so a caller can always distinguish
a satisfied wait from an expired deadline. -/
theorem with_timeout_exclusive (e : TimeoutEvent) (evs : List TimeoutEvent) :
    with_timeout_run (e :: evs) = with_timeout_step .pending e ∧
    with_timeout_run (e :: evs) ≠ .pending ∧
    ((∃ r, with_timeout_run (e :: evs) = .resolved r) ↔
      with_timeout_run (e :: evs) ≠ .deadlineExceeded) := by
  have hrun : with_timeout_run (e :: evs) = with_timeout_step .pending e := by
    rw [with_timeout_run, List.foldl_cons]
    exact with_timeout_foldl_terminal evs _ (with_timeout_step_ne_pending e)
  refine ⟨hrun, by rw [hrun]; exact with_timeout_step_ne_pending e, ?_⟩
  rw [hrun]
  cases e with
  | childResolved r =>
    constructor
    · intro _ h
      exact TimeoutOutcome.noConfusion h
    · intro _
      exact ⟨r, rfl⟩
  | timerFire =>
    constructor
    · rintro ⟨r, h⟩
      exact TimeoutOutcome.noConfusion h
    · intro h
      exact absurd rfl h
